import Mathlib

/-!
# Verification of the PicPyles spatial scene engine

A shallow embedding of the core of the PicPyles repository (the concurrent
scene store with deferred mutation, the picking geometry, the depth-stacking
policy, the auto-layout grid placement, and the TSP-style sequencing
subsystem), together with theorems settling the specification claims.

Conventions of the embedding:
* Python floats are modelled as exact rationals (`ℚ`); the algorithms under
  study are pure arithmetic comparisons, and none of the claims concern
  rounding behaviour.
* Tiles are identity-based objects in Python; they are modelled by stable
  integer handles (`ℕ`), so `obj in list` / `obj is not other` become
  membership / inequality of handles.
* Fallible Python code (operations that raise `KeyError`, `ValueError` or
  `IndexError`) is modelled with `Except String`.
-/

namespace PicPyles

/-! ## SceneStore: `Scene.add_object`, `Scene.remove_object`,
`Scene.remove_all_objects`, `Scene.process_updates` (src/models/scene.py)

`self.objects` is the authoritative list, `self.update_queue` the FIFO queue
of pending `('add', obj)` / `('remove', obj)` mutations.  `queue.Queue.put`
appends at the tail, `get_nowait` pops from the head. -/

/-- The two mutation actions that can be queued, `('add', obj)` and
`('remove', obj)` in the source. -/
inductive SAction where
  | add : SAction
  | remove : SAction
deriving DecidableEq, Repr

/-- The mutable state of `Scene` that the store operations touch: the
authoritative object list and the FIFO update queue (head = front). -/
structure SceneState where
  objects : List ℕ
  updateQueue : List (SAction × ℕ)
deriving DecidableEq, Repr

/-- `Scene.add_object`: under the lock, if the object is not yet in
`self.objects`, enqueue `('add', obj)`.  The membership check consults only
`objects`, not the pending queue. -/
def addObject (s : SceneState) (o : ℕ) : SceneState :=
  if o ∈ s.objects then s
  else { s with updateQueue := s.updateQueue ++ [(SAction.add, o)] }

/-- `Scene.remove_object`: under the lock, if the object is currently in
`self.objects`, enqueue `('remove', obj)`. -/
def removeObject (s : SceneState) (o : ℕ) : SceneState :=
  if o ∈ s.objects then
    { s with updateQueue := s.updateQueue ++ [(SAction.remove, o)] }
  else s

/-- `Scene.remove_all_objects`: enqueue a `('remove', obj)` for every object
currently in `self.objects`. -/
def removeAllObjects (s : SceneState) : SceneState :=
  { s with updateQueue := s.updateQueue ++ s.objects.map (fun o => (SAction.remove, o)) }

/-- Apply a single dequeued mutation to the object list: `'add'` appends,
`'remove'` deletes the first occurrence if present (`if obj in self.objects:
self.objects.remove(obj)`). -/
def applyAction (objs : List ℕ) : SAction × ℕ → List ℕ
  | (SAction.add, o) => objs ++ [o]
  | (SAction.remove, o) => if o ∈ objs then objs.erase o else objs

/-- Apply a list of mutations front-to-back. -/
def applyActions (acts : List (SAction × ℕ)) (objs : List ℕ) : List ℕ :=
  acts.foldl applyAction objs

/-- The loop body of `Scene.process_updates`: dequeue and apply up to
`maxIterations` mutations; the Boolean records whether anything was applied. -/
def processUpdatesLoop : ℕ → SceneState → Bool → SceneState × Bool
  | 0, s, u => (s, u)
  | n + 1, s, u =>
    match s.updateQueue with
    | [] => (s, u)
    | a :: rest => processUpdatesLoop n ⟨applyAction s.objects a, rest⟩ true

/-- `Scene.process_updates(max_iterations)`: drain up to `max_iterations`
queued mutations in FIFO order, returning the new state and whether any
mutation was applied. -/
def processUpdates (maxIterations : ℕ) (s : SceneState) : SceneState × Bool :=
  processUpdatesLoop maxIterations s false

/-! ## PickEngine point pick: `Scene.query` and `Scene.ray_intersects_object`
(src/models/scene.py)

`query` normalises the click direction by its Euclidean norm; the plane
projection `dir * (-origin.z) / dir.z` is invariant under scaling `dir` by
any nonzero factor, so the embedding keeps the unnormalised direction and
stays exact over `ℚ`.  When `dir.z == 0.0` the float code produces `inf`/`nan`
coordinates, every bounds comparison evaluates to `False`, and no object is
hit; the embedding reflects that with an explicit guard. -/

/-- A 3D vector / point with rational coordinates. -/
structure Vec3 where
  x : ℚ
  y : ℚ
  z : ℚ
deriving DecidableEq, Repr

/-- The fields of a scene object that the point pick reads: `position` and
the footprint `size` (width, height). -/
structure PickObj where
  position : Vec3
  sizeW : ℚ
  sizeH : ℚ
deriving DecidableEq, Repr

/-- `Scene.ray_intersects_object`: project the ray onto the object plane
(`z = 0`, at parameter `-origin.z / dir.z`) and test the projected point
against the object's axis-aligned bounds
`[position.x ± w/2] × [position.y ± h/2]`. -/
def rayIntersectsObject (rayOrigin rayDir : Vec3) (obj : PickObj) : Bool :=
  if rayDir.z = 0 then false
  else
    let objectPlaneDistance := -rayOrigin.z
    let ipx := rayDir.x * objectPlaneDistance / rayDir.z - rayOrigin.x
    let ipy := rayDir.y * objectPlaneDistance / rayDir.z - rayOrigin.y
    decide (obj.position.x - obj.sizeW / 2 ≤ ipx ∧ ipx ≤ obj.position.x + obj.sizeW / 2 ∧
      obj.position.y - obj.sizeH / 2 ≤ ipy ∧ ipy ≤ obj.position.y + obj.sizeH / 2)

/-- One step of `Scene.query`'s candidate loop: a hit object replaces the
best candidate when there is none yet or when its `z` is strictly larger. -/
def queryStep (camPos clickPos3d : Vec3) (best : Option PickObj) (obj : PickObj) :
    Option PickObj :=
  if rayIntersectsObject camPos clickPos3d obj then
    match best with
    | none => some obj
    | some b => if b.position.z < obj.position.z then some obj else some b
  else best

/-- `Scene.query`: scan all objects and keep the hit candidate with the
largest `z` (first such candidate on ties). -/
def query (objects : List PickObj) (camPos clickPos3d : Vec3) : Option PickObj :=
  objects.foldl (queryStep camPos clickPos3d) none

/-! ## SequencePlanner: `tsp_nearest_neighbor`, `ConnectorLine.solve_tsp` and
`ConnectorLine.render_object` (src/models/connector_line.py)

The pyqtree spatial index is modelled semantically: each point `i` is
inserted with the degenerate bbox `(x, y, x, y)`, so `intersect(bbox)`
returns exactly the indices whose point lies inside the query box.
`min(neighbors, key=...)` compares Euclidean norms; the embedding compares
squared norms, which selects the same element (squaring is monotone on
nonnegative reals) and stays in `ℚ`. -/

/-- `positions / np.array((2.5, 1.0, 1.0))`: the anisotropic normalisation
applied by `solve_tsp` before building the quadtree. -/
def scalePoint (p : Vec3) : Vec3 :=
  ⟨p.x / (5 / 2), p.y, p.z⟩

/-- Normalise a whole position list. -/
def scalePoints (ps : List Vec3) : List Vec3 :=
  ps.map scalePoint

/-- Quadtree query `quadtree.intersect((x1, y1, x2, y2))`: the indices whose
(point-sized) bbox intersects the query box. -/
def quadtreeIntersect (ps : List Vec3) (x1 y1 x2 y2 : ℚ) : List ℕ :=
  (List.range ps.length).filter fun i =>
    let p := ps.getD i ⟨0, 0, 0⟩
    decide (x1 ≤ p.x ∧ p.x ≤ x2 ∧ y1 ≤ p.y ∧ p.y ≤ y2)

/-- Squared Euclidean distance of two 3D points (`np.linalg.norm(p - q)`
squared). -/
def sqDist (p q : Vec3) : ℚ :=
  (p.x - q.x) ^ 2 + (p.y - q.y) ^ 2 + (p.z - q.z) ^ 2

/-- Python's `min(x :: l, key=f)`: the first element attaining the minimal
key. -/
def minBy (f : ℕ → ℚ) (x : ℕ) (l : List ℕ) : ℕ :=
  l.foldl (fun b a => if f a < f b then a else b) x

/-- The candidate pool of one `tsp_nearest_neighbor` iteration: the
unvisited indices found in the `±2` query box around the current point, or
all unvisited indices (`u :: us`) when the local box yields none. -/
def tspCandidates (ps : List Vec3) (current u : ℕ) (us : List ℕ) : List ℕ :=
  let cp := ps.getD current ⟨0, 0, 0⟩
  let inBox := quadtreeIntersect ps (cp.x - 2) (cp.y - 2) (cp.x + 2) (cp.y + 2)
  let neighbors := inBox.filter fun i => decide (i ∈ u :: us)
  if neighbors.isEmpty then u :: us else neighbors

/-- `min(neighbors, key=lambda idx: norm(points[current] - points[idx]))`:
the first candidate of minimal distance.  (The `[]` branch is unreachable:
the candidate pool of a non-empty unvisited set is non-empty.) -/
def tspNearest (ps : List Vec3) (current u : ℕ) (us : List ℕ) : ℕ :=
  match tspCandidates ps current u us with
  | [] => u
  | n :: ns => minBy (fun i => sqDist (ps.getD current ⟨0, 0, 0⟩) (ps.getD i ⟨0, 0, 0⟩)) n ns

/-- The `while unvisited:` loop of `tsp_nearest_neighbor`.  `fuel` bounds the
number of iterations; every call supplies `fuel ≥ unvisited.length`, and each
iteration removes the chosen element, so the fuel never runs out. -/
def tspLoop (ps : List Vec3) : ℕ → ℕ → List ℕ → List ℕ → List ℕ
  | 0, _, _, order => order
  | fuel + 1, current, unvisited, order =>
    match unvisited with
    | [] => order
    | u :: us =>
      let nearest := tspNearest ps current u us
      tspLoop ps fuel nearest ((u :: us).erase nearest) (order ++ [nearest])

/-- `tsp_nearest_neighbor(points, quadtree)`: start at index 0 (removing it
from the unvisited set raises `KeyError` when there are no points), then
repeatedly append the nearest unvisited neighbour. -/
def tspNearestNeighbor (ps : List Vec3) : Except String (List ℕ) :=
  if ps.length = 0 then Except.error "KeyError: 0"
  else Except.ok (tspLoop ps ps.length 0 ((List.range ps.length).erase 0) [0])

/-- `ConnectorLine.solve_tsp`: normalise the positions, compute the quadtree
boundary (`np.min` over the empty position array raises `ValueError`), build
the quadtree and run the nearest-neighbour traversal. -/
def solveTsp (positions : List Vec3) : Except String (List ℕ) :=
  if positions.length = 0 then Except.error "ValueError: zero-size array reduction"
  else tspNearestNeighbor (scalePoints positions)

/-- `ConnectorLine.render_object`: skip (`.ok none`) when invisible or when
`np.max(self.order) > len(self.positions)`; otherwise emit one vertex
`(x, y, z + 0.01)` per tour index, raising `IndexError` on an out-of-range
index.  `np.max` of an empty order raises `ValueError` (only reached when
visible, by short-circuit evaluation). -/
def renderConnector (visible : Bool) (order : List ℕ) (positions : List Vec3) :
    Except String (Option (List Vec3)) :=
  if visible = false then Except.ok none
  else
    match order with
    | [] => Except.error "ValueError: zero-size array reduction"
    | o :: os =>
      if os.foldl max o > positions.length then Except.ok none
      else
        (order.mapM fun i =>
          match positions.get? i with
          | some p => Except.ok (⟨p.x, p.y, p.z + 1 / 100⟩ : Vec3)
          | none => Except.error "IndexError: list index out of range").map some

/-! ## PickEngine region select: `Scene.inside_rectangle`,
`Scene.edges_intersect`, `Scene.do_edges_intersect` (src/models/scene.py)

`inside_rectangle` reads only the x/y columns of the object's vertex array,
so vertices are embedded as 2D points. -/

/-- A 2D point (one row of the vertex array, columns 0 and 1). -/
@[ext]
structure Pt2 where
  x : ℚ
  y : ℚ
deriving DecidableEq, Repr

/-- Membership in the axis-aligned bounding box of the segment `a`-`b`
(used to relate a segment crossing to the AABB overlap test). -/
def inSegBox (w a b : Pt2) : Prop :=
  min a.x b.x ≤ w.x ∧ w.x ≤ max a.x b.x ∧ min a.y b.y ≤ w.y ∧ w.y ≤ max a.y b.y

/-- The `val` computed by the `orientation` helper inside
`do_edges_intersect`: `(q.y - p.y) * (r.x - q.x) - (q.x - p.x) * (r.y - q.y)`. -/
def orientVal (p q r : Pt2) : ℚ :=
  (q.y - p.y) * (r.x - q.x) - (q.x - p.x) * (r.y - q.y)

/-- `orientation(p, q, r)`: 0 for collinear, 1 for clockwise, 2 for
counterclockwise. -/
def orientation (p q r : Pt2) : ℕ :=
  if orientVal p q r = 0 then 0
  else if orientVal p q r > 0 then 1
  else 2

/-- `Scene.do_edges_intersect`: the general-case orientation test; the
collinear special cases fall through to `False`. -/
def doEdgesIntersect (p1 q1 p2 q2 : Pt2) : Bool :=
  decide (orientation p1 q1 p2 ≠ orientation p1 q1 q2) &&
    decide (orientation p2 q2 p1 ≠ orientation p2 q2 q1)

/-- The four rectangle edges built by `Scene.edges_intersect` from the two
corners `start` and `end`. -/
def rectEdges (s e : Pt2) : List (Pt2 × Pt2) :=
  [(s, ⟨e.x, s.y⟩), (⟨e.x, s.y⟩, e), (e, ⟨s.x, e.y⟩), (⟨s.x, e.y⟩, s)]

/-- The object edges `verts[i] -> verts[(i+1) % len(verts)]`. -/
def objEdges (verts : List Pt2) : List (Pt2 × Pt2) :=
  verts.zip (verts.rotate 1)

/-- `Scene.edges_intersect`: some object edge properly crosses some
rectangle edge. -/
def edgesIntersect (verts : List Pt2) (s e : Pt2) : Bool :=
  (objEdges verts).any fun oe =>
    (rectEdges s e).any fun re => doEdgesIntersect oe.1 oe.2 re.1 re.2

/-- `np.min` of the x column of a non-empty vertex array (the `[]` case is
never reached: every scene object has at least four vertices, and `np.min`
of an empty array would raise). -/
def minX : List Pt2 → ℚ
  | [] => 0
  | v :: vs => vs.foldl (fun m p => min m p.x) v.x

/-- `np.max` of the x column. -/
def maxX : List Pt2 → ℚ
  | [] => 0
  | v :: vs => vs.foldl (fun m p => max m p.x) v.x

/-- `np.min` of the y column. -/
def minY : List Pt2 → ℚ
  | [] => 0
  | v :: vs => vs.foldl (fun m p => min m p.y) v.y

/-- `np.max` of the y column. -/
def maxY : List Pt2 → ℚ
  | [] => 0
  | v :: vs => vs.foldl (fun m p => max m p.y) v.y

/-- Step (1) of `Scene.inside_rectangle`: AABB overlap between the object's
vertex-derived bounding box and the rectangle. -/
def aabbOverlap (verts : List Pt2) (s e : Pt2) : Bool :=
  decide (maxX verts ≥ min s.x e.x ∧ minX verts ≤ max s.x e.x) &&
    decide (maxY verts ≥ min s.y e.y ∧ minY verts ≤ max s.y e.y)

/-- Step (3) of `Scene.inside_rectangle`: both rectangle corners strictly
inside the object's AABB. -/
def containsRect (verts : List Pt2) (s e : Pt2) : Bool :=
  decide (minX verts < min s.x e.x ∧ min s.x e.x < maxX verts ∧
      minY verts < min s.y e.y ∧ min s.y e.y < maxY verts) &&
    decide (minX verts < max s.x e.x ∧ max s.x e.x < maxX verts ∧
      minY verts < max s.y e.y ∧ max s.y e.y < maxY verts)

/-- `Scene.inside_rectangle`: AABB overlap, then edge intersection, then
full containment. -/
def insideRectangle (verts : List Pt2) (s e : Pt2) : Bool :=
  if aabbOverlap verts s e then true
  else if edgesIntersect verts s e then true
  else if containsRect verts s e then true
  else false

/-! ## StackingPolicy: `OpenGLWidget.get_stack_placement_height`
(src/views/view.py), over `Scene.query_inside_rectangle`
(src/models/scene.py)

Scene objects carry an identity; `obj is not _` is modelled by a stable
integer handle.  `query_inside_rectangle` returns a Python `set`, iterated
only to take a maximum, so a filtered list is an equivalent model. -/

/-- A tile as seen by the stacking policy: identity handle, position and
footprint size. -/
structure Tile where
  id : ℕ
  position : Vec3
  sizeW : ℚ
  sizeH : ℚ
deriving DecidableEq, Repr

/-- The x/y columns of `SceneObject.create_vertices`: the four corners of
the axis-aligned quad of extent `size` centred at `position`. -/
def tileVerts (t : Tile) : List Pt2 :=
  [⟨t.position.x - t.sizeW / 2, t.position.y - t.sizeH / 2⟩,
   ⟨t.position.x + t.sizeW / 2, t.position.y - t.sizeH / 2⟩,
   ⟨t.position.x + t.sizeW / 2, t.position.y + t.sizeH / 2⟩,
   ⟨t.position.x - t.sizeW / 2, t.position.y + t.sizeH / 2⟩]

/-- Modelled from the spec: `SceneObject.get_bounding_box` is called by the
stacking policy (`view.py`) but is not defined anywhere under `src/`;
per §4.3 the stacking policy "queries PickEngine's rectangle test using
`tile`'s own AABB", so it returns the two opposite corners (top-left and
bottom-right) of the tile's axis-aligned footprint. -/
def getBoundingBox (t : Tile) : Pt2 × Pt2 :=
  (⟨t.position.x - t.sizeW / 2, t.position.y + t.sizeH / 2⟩,
   ⟨t.position.x + t.sizeW / 2, t.position.y - t.sizeH / 2⟩)

/-- `Scene.query_inside_rectangle`: all objects passing `inside_rectangle`
for the given corners. -/
def queryInsideRectangle (objects : List Tile) (s e : Pt2) : List Tile :=
  objects.filter fun t => insideRectangle (tileVerts t) s e

/-- `OpenGLWidget.get_stack_placement_height`: heights of all *other*
overlapping objects; `np.max(heights) + 1e-3` if any, else `0.0`. -/
def getStackPlacementHeight (objects : List Tile) (obj : Tile) : ℚ :=
  let tl := (getBoundingBox obj).1
  let br := (getBoundingBox obj).2
  let hits := queryInsideRectangle objects tl br
  let heights := (hits.filter fun t => decide (t.id ≠ obj.id)).map fun t => t.position.z
  match heights with
  | [] => 0
  | h :: hs => hs.foldl max h + 1 / 1000

/-- The overlap predicate of the claim: the other tile's vertex-derived AABB
overlaps the tile's own AABB (the rectangle spanned by its bounding-box
corners). -/
def overlapsTile (t obj : Tile) : Bool :=
  aabbOverlap (tileVerts t) (getBoundingBox obj).1 (getBoundingBox obj).2

/-! ## LayoutEngine: the grid-placement step of `SceneManager.scan_directory`
(src/models/scene_manager.py)

Constants from the source: `default_image_size = (2.0, 2.0 * 9/16)` and
`default_image_spacing = 1.125 * size = (9/4, 81/64)`.  New folders take
grid slots `0..nF-1` and new images slots `nF..nF+nI-1` of the same
row-major `grid_dim × grid_dim` grid, so a single slot function covers
both loops.  `int(np.ceil(np.sqrt(n)))` is the least `g` with `n ≤ g²`
(`np.sqrt` of a perfect square below 2^52 is exact, so the ceiling never
crosses an integer). -/

/-- `grid_dim = int(np.ceil(np.sqrt(n)))`. -/
def gridDim (n : ℕ) : ℕ :=
  if n = 0 then 0 else Nat.sqrt (n - 1) + 1

/-- The position of grid slot `k`:
`new_grid_offset + (u_[k] * w, -v_[k] * h)` with `u_[k] = k % g`,
`v_[k] = k / g` (row-major meshgrid flattening). -/
def cellPos (maxPosX minPosY : ℚ) (g k : ℕ) : ℚ × ℚ :=
  (maxPosX + 9 / 4 + (k % g : ℕ) * (9 / 4 : ℚ),
   minPosY - (k / g : ℕ) * (81 / 64 : ℚ))

/-- The grid-placement step of `scan_directory`: positions assigned to the
`nF` new folders followed by the `nI` new images. -/
def scanPlacements (maxPosX minPosY : ℚ) (nF nI : ℕ) : List (ℚ × ℚ) :=
  (List.range (nF + nI)).map (cellPos maxPosX minPosY (gridDim (nF + nI)))

/-! ## Cached vertex geometry: `SceneObject.update_position`,
`ImageObject.create_vertices`, `ImageObject.move_to`
(src/models/scene_object.py, src/models/image_object.py)

`ImageObject` overrides `create_vertices` with a six-vertex triangle list
(texture coordinates are constants and omitted); both `__init__` (via
`SceneObject.__init__`) and the inherited `update_position` call the
override through dynamic dispatch.  `move_to` assigns `self.position`
directly and calls nothing. -/

/-- The cached state of an `ImageObject` relevant to geometry. -/
structure ImgObj where
  position : Vec3
  sizeW : ℚ
  sizeH : ℚ
  vertices : List Vec3
deriving DecidableEq, Repr

/-- `ImageObject.create_vertices`: the two-triangle quad of extent
`size` centred at `position` (vertex positions only). -/
def imageVertices (position : Vec3) (w h : ℚ) : List Vec3 :=
  [⟨position.x - w / 2, position.y - h / 2, position.z⟩,
   ⟨position.x + w / 2, position.y - h / 2, position.z⟩,
   ⟨position.x + w / 2, position.y + h / 2, position.z⟩,
   ⟨position.x + w / 2, position.y + h / 2, position.z⟩,
   ⟨position.x - w / 2, position.y + h / 2, position.z⟩,
   ⟨position.x - w / 2, position.y - h / 2, position.z⟩]

/-- `ImageObject.__init__` (through `SceneObject.__init__`): store position
and size and cache `create_vertices()`. -/
def mkImageObject (position : Vec3) (w h : ℚ) : ImgObj :=
  ⟨position, w, h, imageVertices position w h⟩

/-- `SceneObject.update_position`: displace the position and re-cache
`create_vertices()`. -/
def updatePosition (o : ImgObj) (d : Vec3) : ImgObj :=
  let newPos : Vec3 := ⟨o.position.x + d.x, o.position.y + d.y, o.position.z + d.z⟩
  ⟨newPos, o.sizeW, o.sizeH, imageVertices newPos o.sizeW o.sizeH⟩

/-- `ImageObject.move_to`: assign `self.position = position` (for a 3-vector
argument) without touching the cached vertices. -/
def moveTo (o : ImgObj) (p : Vec3) : ImgObj :=
  { o with position := p }

/-! ## Theorems -/

/-- Complete characterisation of the drain loop: it applies the first `n`
queued mutations in order, keeps the rest of the queue, and reports whether
anything was applied. -/
lemma processUpdatesLoop_spec (n : ℕ) (s : SceneState) (u : Bool) :
    processUpdatesLoop n s u =
      (⟨applyActions (s.updateQueue.take n) s.objects, s.updateQueue.drop n⟩,
        u || !(s.updateQueue.take n).isEmpty) := by
  induction n generalizing s u with
  | zero => simp [processUpdatesLoop, applyActions]
  | succ n ih =>
    obtain ⟨objs, q⟩ := s
    cases q with
    | nil => simp [processUpdatesLoop, applyActions]
    | cons a rest => simp [processUpdatesLoop, ih, applyActions]

/-- C5: `process_updates(max_ops)` applies at most `max_ops` pending
mutations (exactly the first `max_ops` of the queue, in FIFO enqueue order,
via `applyActions`), and leaves all remaining pending mutations queued in
their original order for later calls; in particular, starting from an empty
store with three adds enqueued, three successive `process_updates(1)` calls
each make exactly one more tile present, in enqueue order. -/
theorem claim_C5_flush_fifo :
    (∀ (k : ℕ) (s : SceneState),
        (processUpdates k s).1.objects = applyActions (s.updateQueue.take k) s.objects ∧
        (processUpdates k s).1.updateQueue = s.updateQueue.drop k) ∧
    (let s0 : SceneState :=
      ⟨[], [(SAction.add, 1), (SAction.add, 2), (SAction.add, 3)]⟩
     let s1 := (processUpdates 1 s0).1
     let s2 := (processUpdates 1 s1).1
     let s3 := (processUpdates 1 s2).1
     s1.objects = [1] ∧ s2.objects = [1, 2] ∧ s3.objects = [1, 2, 3] ∧
       s3.updateQueue = []) := by
  refine ⟨fun k s => ?_, by decide⟩
  rw [processUpdates, processUpdatesLoop_spec]
  exact ⟨rfl, rfl⟩

/-- C1 (counterexample): enqueueing the same fresh tile twice before any
flush queues two `add` mutations (the membership check in `add_object` looks
only at `objects`, not at the pending queue), so after a flush the tile
appears twice in `objects`.  This refutes the claimed store invariant. -/
theorem claim_C1_cex :
    (processUpdates 10 (addObject (addObject ⟨[], []⟩ 7) 7)).1.objects = [7, 7] := by
  decide

/-- C1 (amended): `add_object` of a tile already present in `objects` is a
no-op and is not queued redundantly, and `remove_object` of an absent tile is
a silent no-op; but the membership check consults only `objects`, so a tile
that is merely pending can be enqueued again and may then appear twice (see
the counterexample). -/
theorem claim_C1_idempotent :
    (∀ (s : SceneState) (o : ℕ), o ∈ s.objects → addObject s o = s) ∧
    (∀ (s : SceneState) (o : ℕ), o ∉ s.objects → removeObject s o = s) :=
  ⟨fun s o h => by simp [addObject, h],
   fun s o h => by simp [removeObject, h]⟩

/-- C1 (witness): the amended no-op behaviour at a concrete store. -/
theorem claim_C1_witness :
    addObject ⟨[5], []⟩ 5 = ⟨[5], []⟩ ∧ removeObject ⟨[5], []⟩ 6 = ⟨[5], []⟩ :=
  ⟨claim_C1_idempotent.1 ⟨[5], []⟩ 5 (by decide),
   claim_C1_idempotent.2 ⟨[5], []⟩ 6 (by decide)⟩

/-- The candidate fold of `query` returns `none` exactly when it started with
no candidate and no scanned object is hit. -/
lemma queryFold_eq_none_iff (c k : Vec3) (l : List PickObj) (acc : Option PickObj) :
    l.foldl (queryStep c k) acc = none ↔
      acc = none ∧ ∀ o ∈ l, rayIntersectsObject c k o = false := by
  induction l generalizing acc with
  | nil => simp
  | cons o l ih =>
    rw [List.foldl_cons, ih]
    by_cases ho : rayIntersectsObject c k o
    · cases acc with
      | none => simp [queryStep, ho]
      | some a =>
        simp only [queryStep, ho, if_true]
        by_cases hz : a.position.z < o.position.z <;> simp [hz, ho]
    · simp only [queryStep, ho, if_false]
      constructor
      · rintro ⟨h1, h2⟩
        refine ⟨h1, fun o' ho' => ?_⟩
        rcases List.mem_cons.1 ho' with rfl | h
        · simpa using ho
        · exact h2 o' h
      · rintro ⟨h1, h2⟩
        exact ⟨h1, fun o' ho' => h2 o' (List.mem_cons_of_mem _ ho')⟩

/-- The candidate fold of `query` returns a hit object of maximal `z` among
all hit objects scanned (or the starting candidate, which it never
undercuts). -/
lemma queryFold_eq_some (c k : Vec3) (l : List PickObj) (acc : Option PickObj)
    (b : PickObj) (h : l.foldl (queryStep c k) acc = some b) :
    ((b ∈ l ∧ rayIntersectsObject c k b = true) ∨ acc = some b) ∧
      (∀ o ∈ l, rayIntersectsObject c k o = true → o.position.z ≤ b.position.z) ∧
      (∀ a, acc = some a → a.position.z ≤ b.position.z) := by
  induction l generalizing acc with
  | nil =>
    refine ⟨Or.inr (by simpa using h), by simp, fun a ha => ?_⟩
    simp only [List.foldl_nil] at h
    rw [ha] at h
    cases h
    exact le_refl _
  | cons o l ih =>
    rw [List.foldl_cons] at h
    obtain ⟨H1, H2, H3⟩ := ih (queryStep c k acc o) h
    by_cases ho : rayIntersectsObject c k o
    · cases acc with
      | none =>
        have hacc : queryStep c k none o = some o := by simp [queryStep, ho]
        have hob : o.position.z ≤ b.position.z := H3 o hacc
        refine ⟨?_, ?_, by simp⟩
        · rcases H1 with ⟨hbl, hbh⟩ | hab
          · exact Or.inl ⟨List.mem_cons_of_mem _ hbl, hbh⟩
          · rw [hacc] at hab
            cases hab
            exact Or.inl ⟨List.mem_cons_self _ _, ho⟩
        · intro o' ho' hh
          rcases List.mem_cons.1 ho' with rfl | hmem
          · exact hob
          · exact H2 o' hmem hh
      | some a =>
        by_cases hz : a.position.z < o.position.z
        · have hacc : queryStep c k (some a) o = some o := by simp [queryStep, ho, hz]
          have hob : o.position.z ≤ b.position.z := H3 o hacc
          refine ⟨?_, ?_, ?_⟩
          · rcases H1 with ⟨hbl, hbh⟩ | hab
            · exact Or.inl ⟨List.mem_cons_of_mem _ hbl, hbh⟩
            · rw [hacc] at hab
              cases hab
              exact Or.inl ⟨List.mem_cons_self _ _, ho⟩
          · intro o' ho' hh
            rcases List.mem_cons.1 ho' with rfl | hmem
            · exact hob
            · exact H2 o' hmem hh
          · intro a' ha'
            cases ha'
            exact le_trans (le_of_lt hz) hob
        · have hacc : queryStep c k (some a) o = some a := by simp [queryStep, ho, hz]
          have hab : a.position.z ≤ b.position.z := H3 a hacc
          refine ⟨?_, ?_, ?_⟩
          · rcases H1 with ⟨hbl, hbh⟩ | hsome
            · exact Or.inl ⟨List.mem_cons_of_mem _ hbl, hbh⟩
            · rw [hacc] at hsome
              exact Or.inr hsome
          · intro o' ho' hh
            rcases List.mem_cons.1 ho' with rfl | hmem
            · exact le_trans (not_lt.1 hz) hab
            · exact H2 o' hmem hh
          · intro a' ha'
            cases ha'
            exact hab
    · have hacc : queryStep c k acc o = acc := by simp [queryStep, ho]
      rw [hacc] at H1 H3
      refine ⟨?_, ?_, H3⟩
      · rcases H1 with ⟨hbl, hbh⟩ | hsome
        · exact Or.inl ⟨List.mem_cons_of_mem _ hbl, hbh⟩
        · exact Or.inr hsome
      · intro o' ho' hh
        rcases List.mem_cons.1 ho' with rfl | hmem
        · exact absurd hh (by simpa using ho)
        · exact H2 o' hmem hh

/-- C4: `query` returns `None` exactly when no object's axis-aligned
footprint bounds `[position.x ± w/2] × [position.y ± h/2]` contain the
ray's object-plane intersection point (the `ray_intersects_object` test),
and otherwise returns a hit object whose `z` coordinate is maximal among all
hit objects (topmost wins). -/
theorem claim_C4_pick_topmost (objects : List PickObj) (camPos clickPos3d : Vec3) :
    (query objects camPos clickPos3d = none ↔
      ∀ o ∈ objects, rayIntersectsObject camPos clickPos3d o = false) ∧
    (∀ b, query objects camPos clickPos3d = some b →
      b ∈ objects ∧ rayIntersectsObject camPos clickPos3d b = true ∧
        ∀ o ∈ objects, rayIntersectsObject camPos clickPos3d o = true →
          o.position.z ≤ b.position.z) := by
  constructor
  · rw [query, queryFold_eq_none_iff]
    simp
  · intro b hb
    obtain ⟨H1, H2, _⟩ := queryFold_eq_some camPos clickPos3d objects none b hb
    rcases H1 with ⟨hbl, hbh⟩ | hcontra
    · exact ⟨hbl, hbh, H2⟩
    · cases hcontra

/-- C2 (code evaluation at the failing input): the staleness check uses a
strict comparison `np.max(order) > len(positions)`, so a tour order whose
maximum equals `len(positions)` is *not* skipped and the renderer indexes out
of range; an order whose maximum strictly exceeds the length is skipped. -/
theorem claim_C2_render_oob :
    renderConnector true [2] [⟨0, 0, 0⟩] = Except.ok none ∧
    renderConnector true [1] [⟨0, 0, 0⟩] =
      Except.error "IndexError: list index out of range" := by
  constructor <;> rfl

/-- Python's first-minimum `min` returns an element of the scanned list. -/
lemma minBy_mem (f : ℕ → ℚ) (x : ℕ) (l : List ℕ) : minBy f x l ∈ x :: l := by
  induction l generalizing x with
  | nil => simp [minBy]
  | cons a as ih =>
    have hstep : minBy f x (a :: as) = minBy f (if f a < f x then a else x) as := rfl
    rw [hstep]
    rcases List.mem_cons.1 (ih (if f a < f x then a else x)) with hh | hh
    · rw [hh]
      by_cases hfa : f a < f x
      · simp [hfa]
      · simp [hfa]
    · exact List.mem_cons_of_mem _ (List.mem_cons_of_mem _ hh)

/-- Every candidate of a nearest-neighbour iteration is unvisited. -/
lemma tspCandidates_mem (ps : List Vec3) (current u : ℕ) (us : List ℕ) :
    ∀ i ∈ tspCandidates ps current u us, i ∈ u :: us := by
  intro i hi
  simp only [tspCandidates] at hi
  split at hi
  · exact hi
  · exact of_decide_eq_true ((List.mem_filter.1 hi).2)

/-- Each iteration of the nearest-neighbour loop picks an unvisited index. -/
lemma tspNearest_mem (ps : List Vec3) (current u : ℕ) (us : List ℕ) :
    tspNearest ps current u us ∈ u :: us := by
  rw [tspNearest]
  cases hcand : tspCandidates ps current u us with
  | nil => exact List.mem_cons_self _ _
  | cons n ns =>
    apply tspCandidates_mem ps current u us
    rw [hcand]
    exact minBy_mem _ n ns

/-- The nearest-neighbour loop visits every unvisited index exactly once:
given enough fuel, the produced order is (up to order of visitation) the
already-built order followed by the unvisited indices. -/
lemma tspLoop_perm (ps : List Vec3) (fuel : ℕ) :
    ∀ (current : ℕ) (unvisited order : List ℕ),
      unvisited.length ≤ fuel →
      (tspLoop ps fuel current unvisited order).Perm (order ++ unvisited) := by
  induction fuel with
  | zero =>
    intro current unvisited order hlen
    have : unvisited = [] := List.length_eq_zero.1 (Nat.le_zero.1 hlen)
    subst this
    simp [tspLoop]
  | succ fuel ih =>
    intro current unvisited order hlen
    cases unvisited with
    | nil => simp [tspLoop]
    | cons u us =>
      have hmem := tspNearest_mem ps current u us
      set nearest := tspNearest ps current u us with hdef
      have hstep : tspLoop ps (fuel + 1) current (u :: us) order =
          tspLoop ps fuel nearest ((u :: us).erase nearest) (order ++ [nearest]) := rfl
      rw [hstep]
      have hlen' : ((u :: us).erase nearest).length ≤ fuel := by
        rw [List.length_erase_of_mem hmem]
        simpa using Nat.le_of_succ_le_succ hlen
      have hrec := ih nearest ((u :: us).erase nearest) (order ++ [nearest]) hlen'
      refine hrec.trans ?_
      have hperm : (u :: us).Perm (nearest :: (u :: us).erase nearest) :=
        List.perm_cons_erase hmem
      have heq : (order ++ [nearest]) ++ (u :: us).erase nearest
          = order ++ (nearest :: (u :: us).erase nearest) := by simp
      rw [heq]
      exact List.Perm.append_left order hperm.symm

/-- C3 (counterexample): building a tour over zero positions raises an error
(`np.min` over the empty position array while computing the quadtree
boundary), rather than returning an empty order. -/
theorem claim_C3_cex :
    solveTsp [] = Except.error "ValueError: zero-size array reduction" := rfl

/-- C3 (amended): building a tour over zero positions raises an error — the
boundary computation fails on an empty array, and the nearest-neighbour
traversal itself would fail removing start index 0 from the empty unvisited
set — while every non-empty position list yields a tour without error. -/
theorem claim_C3_empty_raises :
    (∀ ps : List Vec3, (solveTsp ps).isOk = true ↔ ps ≠ []) ∧
    tspNearestNeighbor [] = Except.error "KeyError: 0" := by
  refine ⟨fun ps => ?_, rfl⟩
  cases ps with
  | nil => simp [solveTsp, Except.isOk, Except.toBool]
  | cons p ps =>
    simp [solveTsp, tspNearestNeighbor, scalePoints, Except.isOk, Except.toBool]

/-- C7: the tour built over `n ≥ 1` positions is a permutation of the index
range `0..n-1` (in particular no index repeats), and over a single position
it is exactly `[0]`. -/
theorem claim_C7_permutation :
    (∀ ps : List Vec3, ps ≠ [] →
        ∃ ord, solveTsp ps = Except.ok ord ∧ ord.Perm (List.range ps.length)) ∧
    (∀ p : Vec3, solveTsp [p] = Except.ok [0]) := by
  constructor
  · intro ps hne
    have hlen : ps.length ≠ 0 := fun h => hne (List.length_eq_zero.1 h)
    have hpos : 0 < ps.length := Nat.pos_of_ne_zero hlen
    refine ⟨tspLoop (scalePoints ps) (scalePoints ps).length 0
        ((List.range (scalePoints ps).length).erase 0) [0], ?_, ?_⟩
    · rw [solveTsp, if_neg hlen, tspNearestNeighbor, if_neg]
      rw [scalePoints, List.length_map]
      exact hlen
    · have hslen : (scalePoints ps).length = ps.length := by
        rw [scalePoints, List.length_map]
      have h0 : 0 ∈ List.range (scalePoints ps).length := by
        rw [List.mem_range, hslen]
        exact hpos
      have herase : ((List.range (scalePoints ps).length).erase 0).length
          ≤ (scalePoints ps).length := by
        exact le_trans (List.length_erase_le _ _) (by simp)
      have hperm := tspLoop_perm (scalePoints ps) (scalePoints ps).length 0
        ((List.range (scalePoints ps).length).erase 0) [0] herase
      refine hperm.trans ?_
      have heq : ([0] ++ (List.range (scalePoints ps).length).erase 0 : List ℕ)
          = 0 :: (List.range (scalePoints ps).length).erase 0 := by simp
      rw [heq, ← hslen]
      exact (List.perm_cons_erase h0).symm
  · intro p
    rfl

/-- Rebasing identity for the orientation value: measuring from `q` or from
`p` gives the same cross product. -/
lemma orientVal_rebase (p q r : Pt2) :
    orientVal p q r = (q.y - p.y) * (r.x - p.x) - (q.x - p.x) * (r.y - p.y) := by
  unfold orientVal
  ring

/-- A degenerate first segment has orientation value 0 for every probe. -/
lemma orientVal_self (p r : Pt2) : orientVal p p r = 0 := by
  unfold orientVal
  ring

/-- Different orientation classes force the two orientation values to be
distinct and weakly opposite in sign. -/
lemma orientation_ne_spec (p q a b : Pt2)
    (h : orientation p q a ≠ orientation p q b) :
    orientVal p q a ≠ orientVal p q b ∧
      (orientVal p q a ≤ 0 ∧ 0 ≤ orientVal p q b ∨
        orientVal p q b ≤ 0 ∧ 0 ≤ orientVal p q a) := by
  unfold orientation at h
  rcases lt_trichotomy (orientVal p q a) 0 with ha | ha | ha <;>
    rcases lt_trichotomy (orientVal p q b) 0 with hb | hb | hb
  · exfalso
    apply h
    rw [if_neg ha.ne, if_neg (not_lt.2 ha.le), if_neg hb.ne, if_neg (not_lt.2 hb.le)]
  · exact ⟨by rw [hb]; exact ha.ne, Or.inl ⟨ha.le, hb.ge⟩⟩
  · exact ⟨ne_of_lt (ha.trans hb), Or.inl ⟨ha.le, hb.le⟩⟩
  · exact ⟨by rw [ha]; exact (Ne.symm hb.ne), Or.inr ⟨hb.le, ha.ge⟩⟩
  · exfalso
    apply h
    rw [if_pos ha, if_pos hb]
  · exact ⟨by rw [ha]; exact (Ne.symm hb.ne.symm), Or.inl ⟨ha.le, hb.le⟩⟩
  · exact ⟨ne_of_gt (hb.trans ha), Or.inr ⟨hb.le, ha.le⟩⟩
  · exact ⟨by rw [hb]; exact ha.ne.symm, Or.inr ⟨hb.le, ha.le⟩⟩
  · exfalso
    apply h
    rw [if_neg ha.ne', if_pos ha, if_neg hb.ne', if_pos hb]

/-- A convex combination stays between the endpoints. -/
lemma convex_mem {t : ℚ} (a b : ℚ) (h0 : 0 ≤ t) (h1 : t ≤ 1) :
    min a b ≤ a + t * (b - a) ∧ a + t * (b - a) ≤ max a b := by
  rcases le_total a b with hab | hab
  · rw [min_eq_left hab, max_eq_right hab]
    constructor <;> nlinarith
  · rw [min_eq_right hab, max_eq_left hab]
    constructor <;> nlinarith

/-- The crossing parameter `a / (a - b)` of two weakly opposite, distinct
values lies in the unit interval. -/
lemma ratio_unit {a b : ℚ} (hne : a ≠ b)
    (hopp : a ≤ 0 ∧ 0 ≤ b ∨ b ≤ 0 ∧ 0 ≤ a) :
    0 ≤ a / (a - b) ∧ a / (a - b) ≤ 1 := by
  rcases hopp with ⟨ha, hb⟩ | ⟨hb, ha⟩
  · have hd : a - b < 0 := lt_of_le_of_ne (by linarith) (sub_ne_zero.2 hne)
    constructor
    · rw [div_nonneg_iff]
      exact Or.inr ⟨ha, hd.le⟩
    · rw [div_le_one_iff]
      exact Or.inr (Or.inr ⟨hd, by linarith⟩)
  · have hd : 0 < a - b := lt_of_le_of_ne (by linarith) (Ne.symm (sub_ne_zero.2 hne))
    exact ⟨div_nonneg ha hd.le, (div_le_one hd).2 (by linarith)⟩

/-- A point with vanishing orientation value against a non-degenerate
segment lies on the segment's line and can be written in its parametric
form. -/
lemma on_line_param (a b w : Pt2) (hab : a ≠ b)
    (h : orientVal a b w = 0) :
    ∃ s : ℚ, w.x = a.x + s * (b.x - a.x) ∧ w.y = a.y + s * (b.y - a.y) := by
  have hcross : (b.y - a.y) * (w.x - a.x) = (b.x - a.x) * (w.y - a.y) := by
    have := orientVal_rebase a b w
    rw [h] at this
    linarith
  by_cases hx : b.x = a.x
  · have hy : b.y ≠ a.y := by
      intro hy
      exact hab (by cases a; cases b; simp_all)
    have hwx : w.x = a.x := by
      have h0 : (b.y - a.y) * (w.x - a.x) = 0 := by
        rw [hcross, hx]
        ring
      rcases mul_eq_zero.1 h0 with h' | h'
      · exact absurd (by linarith : b.y = a.y) hy
      · linarith
    have hy' : b.y - a.y ≠ 0 := sub_ne_zero.2 hy
    refine ⟨(w.y - a.y) / (b.y - a.y), ?_, ?_⟩
    · rw [hwx, hx]
      ring
    · rw [div_mul_cancel₀ _ hy']
      ring
  · have hx' : b.x - a.x ≠ 0 := sub_ne_zero.2 hx
    refine ⟨(w.x - a.x) / (b.x - a.x), ?_, ?_⟩
    · field_simp
    · field_simp
      nlinarith [hcross]

/-- The orientation value is affine along a parametrised segment. -/
lemma orientVal_affine (a b c d : Pt2) (r : ℚ) :
    orientVal a b ⟨c.x + r * (d.x - c.x), c.y + r * (d.y - c.y)⟩
      = (1 - r) * orientVal a b c + r * orientVal a b d := by
  dsimp only [orientVal]
  ring

/-- The orientation value of a segment against its own first endpoint is 0. -/
lemma orientVal_left (p q : Pt2) : orientVal p q p = 0 := by
  dsimp only [orientVal]
  ring

/-- The orientation value of a segment against its own second endpoint is 0. -/
lemma orientVal_right (p q : Pt2) : orientVal p q q = 0 := by
  dsimp only [orientVal]
  ring

/-- Key geometric fact behind the redundancy of step (2) of
`inside_rectangle`: when the orientation test of `do_edges_intersect`
succeeds, the two segments share a common point, which therefore lies in
both segments' bounding boxes. -/
lemma doEdgesIntersect_shared_box (p1 q1 p2 q2 : Pt2)
    (h : doEdgesIntersect p1 q1 p2 q2 = true) :
    ∃ w : Pt2, inSegBox w p1 q1 ∧ inSegBox w p2 q2 := by
  rw [doEdgesIntersect, Bool.and_eq_true, decide_eq_true_eq, decide_eq_true_eq] at h
  obtain ⟨h12, h34⟩ := h
  obtain ⟨hne12, hopp12⟩ := orientation_ne_spec p1 q1 p2 q2 h12
  obtain ⟨hne34, hopp34⟩ := orientation_ne_spec p2 q2 p1 q1 h34
  set t := orientVal p2 q2 p1 / (orientVal p2 q2 p1 - orientVal p2 q2 q1) with ht
  obtain ⟨ht0, ht1⟩ := ratio_unit hne34 hopp34
  refine ⟨⟨p1.x + t * (q1.x - p1.x), p1.y + t * (q1.y - p1.y)⟩, ?_, ?_⟩
  · obtain ⟨hx1, hx2⟩ := convex_mem p1.x q1.x ht0 ht1
    obtain ⟨hy1, hy2⟩ := convex_mem p1.y q1.y ht0 ht1
    exact ⟨hx1, hx2, hy1, hy2⟩
  · -- the chosen point lies on the second segment's line …
    have hsub : orientVal p2 q2 p1 - orientVal p2 q2 q1 ≠ 0 := sub_ne_zero.2 hne34
    have hval : orientVal p2 q2
        ⟨p1.x + t * (q1.x - p1.x), p1.y + t * (q1.y - p1.y)⟩ = 0 := by
      rw [orientVal_affine, ht]
      field_simp
      ring
    have hp2q2 : p2 ≠ q2 := by
      intro he
      apply hne34
      rw [he, orientVal_self, orientVal_self]
    -- … so it has a parametric form there
    obtain ⟨s, hsx, hsy⟩ := on_line_param p2 q2 _ hp2q2 hval
    dsimp only at hsx hsy
    have hweq : (⟨p1.x + t * (q1.x - p1.x), p1.y + t * (q1.y - p1.y)⟩ : Pt2)
        = ⟨p2.x + s * (q2.x - p2.x), p2.y + s * (q2.y - p2.y)⟩ := by
      ext
      · exact hsx
      · exact hsy
    -- … and the first segment's straddling pins the parameter into [0, 1]
    have hw0 : orientVal p1 q1
        ⟨p1.x + t * (q1.x - p1.x), p1.y + t * (q1.y - p1.y)⟩ = 0 := by
      rw [orientVal_affine, orientVal_left, orientVal_right]
      ring
    rw [hweq, orientVal_affine] at hw0
    have hne : orientVal p1 q1 p2 - orientVal p1 q1 q2 ≠ 0 := sub_ne_zero.2 hne12
    have h2 : s * (orientVal p1 q1 p2 - orientVal p1 q1 q2) = orientVal p1 q1 p2 := by
      linarith [hw0]
    have hs : s = orientVal p1 q1 p2 / (orientVal p1 q1 p2 - orientVal p1 q1 q2) :=
      (eq_div_iff hne).2 h2
    have hsrange := ratio_unit hne12 hopp12
    rw [← hs] at hsrange
    obtain ⟨hs0, hs1⟩ := hsrange
    obtain ⟨hx1, hx2⟩ := convex_mem p2.x q2.x hs0 hs1
    obtain ⟨hy1, hy2⟩ := convex_mem p2.y q2.y hs0 hs1
    rw [hweq]
    exact ⟨hx1, hx2, hy1, hy2⟩

/-- A running minimum never exceeds its starting accumulator. -/
lemma foldl_min_le_init (f : Pt2 → ℚ) (l : List Pt2) (acc : ℚ) :
    l.foldl (fun m p => min m (f p)) acc ≤ acc := by
  induction l generalizing acc with
  | nil => simp
  | cons v vs ih => exact le_trans (ih (min acc (f v))) (min_le_left _ _)

/-- A running minimum is below every scanned value. -/
lemma foldl_min_le_mem (f : Pt2 → ℚ) (l : List Pt2) (acc : ℚ) {p : Pt2} (hp : p ∈ l) :
    l.foldl (fun m p => min m (f p)) acc ≤ f p := by
  induction l generalizing acc with
  | nil => cases hp
  | cons v vs ih =>
    rcases List.mem_cons.1 hp with rfl | hmem
    · exact le_trans (foldl_min_le_init f vs _) (min_le_right _ _)
    · exact ih _ hmem

/-- A running maximum never undercuts its starting accumulator. -/
lemma le_foldl_max_init (f : Pt2 → ℚ) (l : List Pt2) (acc : ℚ) :
    acc ≤ l.foldl (fun m p => max m (f p)) acc := by
  induction l generalizing acc with
  | nil => simp
  | cons v vs ih => exact le_trans (le_max_left _ _) (ih (max acc (f v)))

/-- A running maximum is above every scanned value. -/
lemma le_foldl_max_mem (f : Pt2 → ℚ) (l : List Pt2) (acc : ℚ) {p : Pt2} (hp : p ∈ l) :
    f p ≤ l.foldl (fun m p => max m (f p)) acc := by
  induction l generalizing acc with
  | nil => cases hp
  | cons v vs ih =>
    rcases List.mem_cons.1 hp with rfl | hmem
    · exact le_trans (le_max_right _ _) (le_foldl_max_init f vs _)
    · exact ih _ hmem

/-- `minX` bounds every vertex abscissa from below. -/
lemma minX_le {verts : List Pt2} {p : Pt2} (hp : p ∈ verts) : minX verts ≤ p.x := by
  cases verts with
  | nil => cases hp
  | cons v vs =>
    rcases List.mem_cons.1 hp with rfl | hmem
    · exact foldl_min_le_init _ vs _
    · exact foldl_min_le_mem _ vs _ hmem

/-- `maxX` bounds every vertex abscissa from above. -/
lemma le_maxX {verts : List Pt2} {p : Pt2} (hp : p ∈ verts) : p.x ≤ maxX verts := by
  cases verts with
  | nil => cases hp
  | cons v vs =>
    rcases List.mem_cons.1 hp with rfl | hmem
    · exact le_foldl_max_init _ vs _
    · exact le_foldl_max_mem _ vs _ hmem

/-- `minY` bounds every vertex ordinate from below. -/
lemma minY_le {verts : List Pt2} {p : Pt2} (hp : p ∈ verts) : minY verts ≤ p.y := by
  cases verts with
  | nil => cases hp
  | cons v vs =>
    rcases List.mem_cons.1 hp with rfl | hmem
    · exact foldl_min_le_init _ vs _
    · exact foldl_min_le_mem _ vs _ hmem

/-- `maxY` bounds every vertex ordinate from above. -/
lemma le_maxY {verts : List Pt2} {p : Pt2} (hp : p ∈ verts) : p.y ≤ maxY verts := by
  cases verts with
  | nil => cases hp
  | cons v vs =>
    rcases List.mem_cons.1 hp with rfl | hmem
    · exact le_foldl_max_init _ vs _
    · exact le_foldl_max_mem _ vs _ hmem

/-- A point in the box of a rectangle edge lies in the rectangle's box. -/
lemma rectEdge_box_sub (s e : Pt2) (re : Pt2 × Pt2) (h : re ∈ rectEdges s e)
    (w : Pt2) (hw : inSegBox w re.1 re.2) :
    min s.x e.x ≤ w.x ∧ w.x ≤ max s.x e.x ∧ min s.y e.y ≤ w.y ∧ w.y ≤ max s.y e.y := by
  obtain ⟨hw1, hw2, hw3, hw4⟩ := hw
  simp only [rectEdges, List.mem_cons, List.not_mem_nil, or_false] at h
  rcases h with rfl | rfl | rfl | rfl <;>
    dsimp only at hw1 hw2 hw3 hw4 <;>
    refine ⟨le_trans (le_min ?_ ?_) hw1, le_trans hw2 (max_le ?_ ?_),
      le_trans (le_min ?_ ?_) hw3, le_trans hw4 (max_le ?_ ?_)⟩ <;>
    simp [min_le_left, min_le_right, le_max_left, le_max_right]

/-- A point in the box of an object edge lies in the object's vertex box. -/
lemma objEdge_box_sub (verts : List Pt2) (oe : Pt2 × Pt2) (h : oe ∈ objEdges verts)
    (w : Pt2) (hw : inSegBox w oe.1 oe.2) :
    minX verts ≤ w.x ∧ w.x ≤ maxX verts ∧ minY verts ≤ w.y ∧ w.y ≤ maxY verts := by
  obtain ⟨hw1, hw2, hw3, hw4⟩ := hw
  rw [objEdges] at h
  obtain ⟨h1, h2⟩ : oe.1 ∈ verts ∧ oe.2 ∈ verts.rotate 1 := by
    obtain ⟨a, b⟩ := oe
    exact List.of_mem_zip h
  rw [List.mem_rotate] at h2
  exact ⟨le_trans (le_min (minX_le h1) (minX_le h2)) hw1,
    le_trans hw2 (max_le (le_maxX h1) (le_maxX h2)),
    le_trans (le_min (minY_le h1) (minY_le h2)) hw3,
    le_trans hw4 (max_le (le_maxY h1) (le_maxY h2))⟩

/-- Step (2) of `inside_rectangle` can only fire when step (1) already
fires: a successful edge-intersection test implies AABB overlap. -/
lemma edgesIntersect_imp_overlap (verts : List Pt2) (s e : Pt2)
    (h : edgesIntersect verts s e = true) : aabbOverlap verts s e = true := by
  rw [edgesIntersect, List.any_eq_true] at h
  obtain ⟨oe, hoe, h2⟩ := h
  rw [List.any_eq_true] at h2
  obtain ⟨re, hre, hdo⟩ := h2
  obtain ⟨w, hw1, hw2⟩ := doEdgesIntersect_shared_box _ _ _ _ hdo
  obtain ⟨ho1, ho2, ho3, ho4⟩ := objEdge_box_sub verts oe hoe w hw1
  obtain ⟨hr1, hr2, hr3, hr4⟩ := rectEdge_box_sub s e re hre w hw2
  rw [aabbOverlap, Bool.and_eq_true, decide_eq_true_eq, decide_eq_true_eq]
  exact ⟨⟨le_trans hr1 ho2, le_trans ho1 hr2⟩, ⟨le_trans hr3 ho4, le_trans ho3 hr4⟩⟩

/-- Step (3) of `inside_rectangle` can only fire when step (1) already
fires: strict containment of the rectangle implies AABB overlap. -/
lemma contains_imp_overlap (verts : List Pt2) (s e : Pt2)
    (h : containsRect verts s e = true) : aabbOverlap verts s e = true := by
  rw [containsRect, Bool.and_eq_true, decide_eq_true_eq, decide_eq_true_eq] at h
  obtain ⟨⟨_, h2, _, h4⟩, ⟨h5, _, h7, _⟩⟩ := h
  rw [aabbOverlap, Bool.and_eq_true, decide_eq_true_eq, decide_eq_true_eq]
  exact ⟨⟨le_of_lt h2, le_of_lt h5⟩, ⟨le_of_lt h4, le_of_lt h7⟩⟩

/-- The three-step membership test collapses to its first step. -/
lemma insideRectangle_eq_aabb (verts : List Pt2) (s e : Pt2) :
    insideRectangle verts s e = aabbOverlap verts s e := by
  cases hov : aabbOverlap verts s e
  · cases h2 : edgesIntersect verts s e
    · cases h3 : containsRect verts s e
      · simp [insideRectangle, hov, h2, h3]
      · have := contains_imp_overlap verts s e h3
        rw [hov] at this
        simp at this
    · have := edgesIntersect_imp_overlap verts s e h2
      rw [hov] at this
      simp at this
  · simp [insideRectangle, hov]

/-- The AABB overlap test does not care which rectangle corner is which. -/
lemma aabbOverlap_comm (verts : List Pt2) (s e : Pt2) :
    aabbOverlap verts s e = aabbOverlap verts e s := by
  rw [aabbOverlap, aabbOverlap, min_comm s.x e.x, max_comm s.x e.x,
    min_comm s.y e.y, max_comm s.y e.y]

/-- C9: for every object (non-empty vertex list, as `np.min` of an empty
array would raise), the three-step `inside_rectangle` test is equivalent to
its first step alone — it returns `True` iff the object's vertex-derived
AABB overlaps the rectangle's AABB — and consequently it is symmetric under
swapping the rectangle corners `start` and `end`. -/
theorem claim_C9_rectangle_refinement (verts : List Pt2) (s e : Pt2)
    (_hv : verts ≠ []) :
    insideRectangle verts s e = aabbOverlap verts s e ∧
    insideRectangle verts s e = insideRectangle verts e s := by
  refine ⟨insideRectangle_eq_aabb verts s e, ?_⟩
  rw [insideRectangle_eq_aabb verts s e, insideRectangle_eq_aabb verts e s,
    aabbOverlap_comm]

/-- C9 (witness): the equivalence and symmetry at a unit square and a
disjoint rectangle. -/
theorem claim_C9_witness :
    insideRectangle [⟨0, 0⟩, ⟨1, 0⟩, ⟨1, 1⟩, ⟨0, 1⟩] ⟨2, 2⟩ ⟨3, 3⟩ =
        aabbOverlap [⟨0, 0⟩, ⟨1, 0⟩, ⟨1, 1⟩, ⟨0, 1⟩] ⟨2, 2⟩ ⟨3, 3⟩ ∧
    insideRectangle [⟨0, 0⟩, ⟨1, 0⟩, ⟨1, 1⟩, ⟨0, 1⟩] ⟨2, 2⟩ ⟨3, 3⟩ =
        insideRectangle [⟨0, 0⟩, ⟨1, 0⟩, ⟨1, 1⟩, ⟨0, 1⟩] ⟨3, 3⟩ ⟨2, 2⟩ :=
  claim_C9_rectangle_refinement [⟨0, 0⟩, ⟨1, 0⟩, ⟨1, 1⟩, ⟨0, 1⟩] ⟨2, 2⟩ ⟨3, 3⟩
    (by decide)

/-- C10 (counterexample): after `move_to`, the cached vertices still
describe the quad at the old position, not the current one. -/
theorem claim_C10_cex :
    (moveTo (mkImageObject ⟨0, 0, 0⟩ 2 2) ⟨1, 0, 0⟩).vertices ≠
      imageVertices (moveTo (mkImageObject ⟨0, 0, 0⟩ 2 2) ⟨1, 0, 0⟩).position 2 2 := by
  intro h
  have hx := congrArg (fun l => (l.headD ⟨9, 9, 9⟩).x) h
  norm_num [moveTo, mkImageObject, imageVertices] at hx

/-- C10 (amended): construction and `update_position` leave the cached
vertices equal to the quad of extent `size` centred at the current position;
`move_to`, however, changes the position and leaves the cached vertices at
the previous position. -/
theorem claim_C10_vertex_cache :
    (∀ (p : Vec3) (w h : ℚ),
        (mkImageObject p w h).vertices
          = imageVertices (mkImageObject p w h).position w h) ∧
    (∀ (o : ImgObj) (d : Vec3),
        (updatePosition o d).vertices
          = imageVertices (updatePosition o d).position o.sizeW o.sizeH) ∧
    (∀ (o : ImgObj) (p : Vec3),
        (moveTo o p).position = p ∧ (moveTo o p).vertices = o.vertices) :=
  ⟨fun _ _ _ => rfl, fun _ _ => rfl, fun _ _ => ⟨rfl, rfl⟩⟩

/-- C8: for a non-empty batch of newly discovered items, distinct grid slots
receive distinct positions (no two new items share a cell), and every
assigned position lies at least one spacing to the right of the existing
bounding box's maximal x. -/
theorem claim_C8_grid_layout (maxPosX minPosY : ℚ) (nF nI : ℕ)
    (_h : 1 ≤ nF + nI) :
    (∀ k1 k2, k1 < nF + nI → k2 < nF + nI →
        cellPos maxPosX minPosY (gridDim (nF + nI)) k1
          = cellPos maxPosX minPosY (gridDim (nF + nI)) k2 → k1 = k2) ∧
    (∀ p ∈ scanPlacements maxPosX minPosY nF nI, maxPosX + 9 / 4 ≤ p.1) := by
  constructor
  · intro k1 k2 _ _ heq
    set g := gridDim (nF + nI) with hg
    have hfst := congrArg Prod.fst heq
    have hsnd := congrArg Prod.snd heq
    dsimp only [cellPos] at hfst hsnd
    have hmodq : ((k1 % g : ℕ) : ℚ) * (9 / 4) = ((k2 % g : ℕ) : ℚ) * (9 / 4) := by
      linarith
    have hdivq : ((k1 / g : ℕ) : ℚ) * (81 / 64) = ((k2 / g : ℕ) : ℚ) * (81 / 64) := by
      linarith
    have hmod : k1 % g = k2 % g := by
      have := mul_right_cancel₀ (by norm_num : (9 / 4 : ℚ) ≠ 0) hmodq
      exact_mod_cast this
    have hdiv : k1 / g = k2 / g := by
      have := mul_right_cancel₀ (by norm_num : (81 / 64 : ℚ) ≠ 0) hdivq
      exact_mod_cast this
    calc k1 = g * (k1 / g) + k1 % g := (Nat.div_add_mod k1 g).symm
      _ = g * (k2 / g) + k2 % g := by rw [hmod, hdiv]
      _ = k2 := Nat.div_add_mod k2 g
  · intro p hp
    obtain ⟨k, _, rfl⟩ := List.mem_map.1 hp
    dsimp only [cellPos]
    have hnn : (0 : ℚ) ≤ ((k % gridDim (nF + nI) : ℕ) : ℚ) * (9 / 4) := by
      positivity
    linarith

/-- C8 (witness): the concrete three-item batch (one folder, two images)
starts at least one spacing to the right of `max_x = 0`. -/
theorem claim_C8_witness :
    (0 : ℚ) + 9 / 4 ≤ (cellPos 0 0 (gridDim 3) 0).1 :=
  (claim_C8_grid_layout 0 0 1 2 (by norm_num)).2 _
    (List.mem_map.2 ⟨0, by simp, rfl⟩)

/-- Folding `max` over a list agrees with `List.maximum` seeded with the
accumulator. -/
lemma foldlMax_eq_maximum (hs : List ℚ) : ∀ h : ℚ,
    ((hs.foldl max h : ℚ) : WithBot ℚ) = max (h : WithBot ℚ) hs.maximum := by
  induction hs with
  | nil => intro h; simp [List.maximum_nil]
  | cons a as ih =>
    intro h
    rw [List.foldl_cons, ih (max h a), List.maximum_cons, WithBot.coe_max, max_assoc]

/-- The heights list of the stacking query equals the map over the
identity-and-AABB-overlap filter of the object list. -/
lemma getStackPlacementHeight_eq (objects : List Tile) (obj : Tile) :
    getStackPlacementHeight objects obj =
      match (objects.filter fun t => decide (t.id ≠ obj.id) && overlapsTile t obj).map
          (fun t => t.position.z) with
      | [] => 0
      | h :: hs => hs.foldl max h + 1 / 1000 := by
  have hkey : (queryInsideRectangle objects (getBoundingBox obj).1
        (getBoundingBox obj).2).filter (fun t => decide (t.id ≠ obj.id))
      = objects.filter fun t => decide (t.id ≠ obj.id) && overlapsTile t obj := by
    rw [queryInsideRectangle, List.filter_filter]
    apply List.filter_congr
    intro t _
    simp only [insideRectangle_eq_aabb, overlapsTile]
  simp only [getStackPlacementHeight]
  rw [hkey]

/-- C6: `get_stack_placement_height(tile)` returns exactly `0` when no other
tile's footprint AABB overlaps the tile's own AABB, and otherwise the
maximal `z` among those other overlapping tiles plus `ε = 1e-3`; the tile
itself is excluded from the overlap query by identity. -/
theorem claim_C6_stack_height (objects : List Tile) (obj : Tile) :
    ((objects.filter fun t => decide (t.id ≠ obj.id) && overlapsTile t obj) = [] →
        getStackPlacementHeight objects obj = 0) ∧
    ((objects.filter fun t => decide (t.id ≠ obj.id) && overlapsTile t obj) ≠ [] →
        ((objects.filter fun t => decide (t.id ≠ obj.id) && overlapsTile t obj).map
            (fun t => t.position.z)).maximum
          = ((getStackPlacementHeight objects obj - 1 / 1000 : ℚ) : WithBot ℚ)) := by
  cases hlist : objects.filter fun t => decide (t.id ≠ obj.id) && overlapsTile t obj with
  | nil =>
    refine ⟨fun _ => ?_, fun hne => absurd rfl hne⟩
    rw [getStackPlacementHeight_eq, hlist]
    rfl
  | cons t ts =>
    refine ⟨fun hcontra => absurd hcontra (List.cons_ne_nil t ts), fun _ => ?_⟩
    rw [getStackPlacementHeight_eq, hlist, List.map_cons]
    have hcancel : (ts.map fun t => t.position.z).foldl max t.position.z + 1 / 1000
        - 1 / 1000 = (ts.map fun t => t.position.z).foldl max t.position.z := by
      ring
    rw [List.maximum_cons, ← foldlMax_eq_maximum]
    dsimp only
    rw [hcancel]

/-- C6 (witness): concrete instances of both branches — an isolated tile
gets height `0`, and a tile overlapped by one other tile of height `5` sees
maximal height `5`. -/
theorem claim_C6_witness :
    getStackPlacementHeight [⟨0, ⟨0, 0, 0⟩, 2, 2⟩] ⟨0, ⟨0, 0, 0⟩, 2, 2⟩ = 0 ∧
    (([⟨0, ⟨0, 0, 0⟩, 2, 2⟩, ⟨1, ⟨1, 1, 5⟩, 2, 2⟩].filter fun t =>
        decide (t.id ≠ (⟨0, ⟨0, 0, 0⟩, 2, 2⟩ : Tile).id) &&
          overlapsTile t ⟨0, ⟨0, 0, 0⟩, 2, 2⟩).map (fun t => t.position.z)).maximum
      = ((getStackPlacementHeight [⟨0, ⟨0, 0, 0⟩, 2, 2⟩, ⟨1, ⟨1, 1, 5⟩, 2, 2⟩]
            ⟨0, ⟨0, 0, 0⟩, 2, 2⟩ - 1 / 1000 : ℚ) : WithBot ℚ) := by
  constructor
  · exact (claim_C6_stack_height [⟨0, ⟨0, 0, 0⟩, 2, 2⟩] ⟨0, ⟨0, 0, 0⟩, 2, 2⟩).1
      (by simp [List.filter])
  · exact (claim_C6_stack_height [⟨0, ⟨0, 0, 0⟩, 2, 2⟩, ⟨1, ⟨1, 1, 5⟩, 2, 2⟩]
      ⟨0, ⟨0, 0, 0⟩, 2, 2⟩).2
      (by norm_num [List.filter, overlapsTile, aabbOverlap, tileVerts,
        getBoundingBox, minX, maxX, minY, maxY, min_def, max_def])

/-- C7 (witness): a two-point tour is a permutation of `{0, 1}`, and a
one-point tour is `[0]`. -/
theorem claim_C7_witness :
    (∃ ord, solveTsp [⟨0, 0, 0⟩, ⟨3, 3, 0⟩] = Except.ok ord ∧
        ord.Perm (List.range 2)) ∧
    solveTsp [⟨5, 5, 0⟩] = Except.ok [0] :=
  ⟨claim_C7_permutation.1 [⟨0, 0, 0⟩, ⟨3, 3, 0⟩] (by simp),
   claim_C7_permutation.2 ⟨5, 5, 0⟩⟩

end PicPyles

